import Mathlib

/-
Verification of a2sh3r/ascii-timer (src/internal/asciitimer/ascii_timer.go).

The Go source is shallowly embedded below:
- the glyph tables are copied verbatim;
- `fmt.Sprintf` with the `%02d` verb is embedded as `pad2` on top of an
  explicit decimal formatter (`natDigsAux` / `intStr`);
- `getASCIITime` is embedded as an `Option`-valued function, `none`
  standing for a runtime panic of the slice indexing `digits[digit]`;
- the terminal handling (`Termios`, `makeRaw`) is embedded with the two
  ioctl results supplied as an explicit environment;
- the input goroutine body and the render loop's elapsed-time arithmetic
  are embedded as pure step functions over an explicit state record,
  instants being modelled as integers (`time.Time{}` is the integer 0);
- the float64 arithmetic of `time.Duration.Hours/Minutes/Seconds` is
  embedded with an exact model of IEEE-754 binary64 round-to-nearest-even
  over the rationals.
-/

namespace AsciiTimer

/-! ### Glyph tables (ascii_timer.go lines 24-111) -/

def digits : List (List String) := [
  [ -- 0
    "█████",
    "█   █",
    "█   █",
    "█   █",
    "█████"],
  [ -- 1
    "  █  ",
    " ██  ",
    "  █  ",
    "  █  ",
    "█████"],
  [ -- 2
    "█████",
    "    █",
    "█████",
    "█    ",
    "█████"],
  [ -- 3
    "█████",
    "    █",
    "█████",
    "    █",
    "█████"],
  [ -- 4
    "█   █",
    "█   █",
    "█████",
    "    █",
    "    █"],
  [ -- 5
    "█████",
    "█    ",
    "█████",
    "    █",
    "█████"],
  [ -- 6
    "█████",
    "█    ",
    "█████",
    "█   █",
    "█████"],
  [ -- 7
    "█████",
    "    █",
    "   █ ",
    "  █  ",
    " █   "],
  [ -- 8
    "█████",
    "█   █",
    "█████",
    "█   █",
    "█████"],
  [ -- 9
    "█████",
    "█   █",
    "█████",
    "    █",
    "█████"]]

def colon : List String := [
  " ",
  "█",
  " ",
  "█",
  " "]

def pausedText : List String := [
  "█████  █████  █   █  █████  █████  ████ ",
  "█   █  █   █  █   █  █      █      █   █",
  "█████  █████  █   █  █████  █████  █   █",
  "█      █   █  █   █      █  █      █   █",
  "█      █   █  █████  █████  █████  ████ "]

/-! ### Decimal formatting: model of `fmt.Sprintf("%02d", n)` for int values -/

/-- The decimal digit character for `d < 10`. -/
def digitChar (d : Nat) : Char := Char.ofNat (48 + d)

/-- Big-endian decimal digit characters of `n`; structurally recursive on a
fuel argument so that it evaluates by kernel reduction.  With `fuel ≥ n` the
fuel is never exhausted. -/
def natDigsAux : Nat → Nat → List Char
  | 0, n => [digitChar (n % 10)]
  | fuel + 1, n => if n < 10 then [digitChar n] else natDigsAux fuel (n / 10) ++ [digitChar (n % 10)]

/-- Decimal string of a natural number, as produced by Go's `fmt` `%d` verb. -/
def natStr (n : Nat) : String := ⟨natDigsAux n n⟩

/-- Decimal string of an integer, as produced by Go's `fmt` `%d` verb. -/
def intStr (n : Int) : String := if n < 0 then "-" ++ natStr n.natAbs else natStr n.natAbs

/-- Go's `fmt.Sprintf("%02d", n)`: pad with a leading zero to width 2.  Only
one-character results (the non-negative single-digit values) get padded; a
negative one-digit value already renders as two characters (sign included). -/
def pad2 (n : Int) : String := if 0 ≤ n ∧ n < 10 then "0" ++ intStr n else intStr n

/-- `fmt.Sprintf("%02d:%02d:%02d", h, m, s)` (ascii_timer.go line 127). -/
def timeStr (h m s : Int) : String := pad2 h ++ ":" ++ pad2 m ++ ":" ++ pad2 s

/-! ### Renderer: `getASCIITime` (ascii_timer.go lines 126-144) -/

/-- The glyph-table index `int(char - '0')` computed at line 136. -/
def digitIndex (c : Char) : Int := (c.toNat : Int) - 48

/-- The glyph row contributed by one character: `colon[row]` for `':'`,
`digits[digit][row]` otherwise.  `none` models the panic of an
out-of-bounds slice index. -/
def glyphRow? (c : Char) (row : Nat) : Option String :=
  if c = ':' then colon.get? row
  else if 0 ≤ digitIndex c ∧ digitIndex c < 10 then
    (digits.get? (digitIndex c).toNat).bind fun g => g.get? row
  else none

/-- One iteration row of the inner loop of `getASCIITime`: the row `row`
line built by appending, for each character, its glyph row followed by one
space (`line += digits[digit][row] + " "`, line 134/137).  The Go loop
associates the appends to the left; string append is associative, so the
right-nested recursion below builds the same string. -/
def buildLine (row : Nat) : List Char → Option String
  | [] => some ""
  | c :: cs =>
    match glyphRow? c row, buildLine row cs with
    | some g, some rest => some (g ++ " " ++ rest)
    | _, _ => none

/-- The five rows accumulated by the outer `for row := 0; row < 5` loop. -/
def asciiRows (cs : List Char) : Option (List String) :=
  match buildLine 0 cs, buildLine 1 cs, buildLine 2 cs, buildLine 3 cs, buildLine 4 cs with
  | some r0, some r1, some r2, some r3, some r4 => some [r0, r1, r2, r3, r4]
  | _, _, _, _, _ => none

/-- Go's `strings.Join(rs, "\n")`. -/
def joinLines : List String → String
  | [] => ""
  | [r] => r
  | r :: rs => r ++ "\n" ++ joinLines rs

/-- `getASCIITime(h, m, s)` (lines 126-144); `none` models a panic. -/
def getASCIITime (h m s : Int) : Option String :=
  (asciiRows (timeStr h m s).data).map joinLines

/-! ### Specification-side shapes used to state the renderer claims -/

/-- A character the glyph lookup accepts: `':'` or one whose computed index
lies within the 10-entry digit table. -/
def validChar (c : Char) : Prop := c = ':' ∨ (0 ≤ digitIndex c ∧ digitIndex c < 10)

instance (c : Char) : Decidable (validChar c) := by unfold validChar; infer_instance

/-- Total version of `glyphRow?` used on the specification side. -/
def glyphRowD (c : Char) (row : Nat) : String := (glyphRow? c row).getD ""

/-- Plain concatenation of a list of strings. -/
def concatAll : List String → String
  | [] => ""
  | x :: xs => x ++ concatAll xs

/-- Concatenation separated (strictly interleaved) by a single space, with
no trailing space: the literal reading of the claim. -/
def sepConcat : List String → String
  | [] => ""
  | [x] => x
  | x :: xs => x ++ " " ++ sepConcat xs

/-- The row `row` line the code actually produces for characters `cs`:
each character's glyph row followed by one trailing space column. -/
def lineSpec (row : Nat) (cs : List Char) : String :=
  concatAll (cs.map fun c => glyphRowD c row ++ " ")

/-- The five row lines. -/
def linesSpec (cs : List Char) : List String :=
  [lineSpec 0 cs, lineSpec 1 cs, lineSpec 2 cs, lineSpec 3 cs, lineSpec 4 cs]

/-- Width of the glyph of a character (5 for a digit, 1 for the colon). -/
def charWidth (c : Char) : Nat := if c = ':' then 1 else 5

/-- Length every row line of `cs` has: each character contributes its glyph
width plus the one space column. -/
def lineLen (cs : List Char) : Nat := (cs.map fun c => charWidth c + 1).sum

/-- The row `row` line as the claim literally words it: the glyph rows of
the characters separated by single spaces, with no trailing space. -/
def sepLineSpec (row : Nat) (cs : List Char) : String :=
  sepConcat (cs.map fun c => glyphRowD c row)

/-! ### Terminal mode controller (ascii_timer.go lines 13-22, 113-120, 146-188) -/

/-- The `Termios` struct (lines 13-22).  The `uint32`/`uint8` fields are
modelled as naturals (with explicit `< 2^32` hypotheses where a claim needs
the width); `Cc [19]uint8` is a list of length 19. -/
structure Termios where
  Iflag : Nat
  Oflag : Nat
  Cflag : Nat
  Lflag : Nat
  Line : Nat
  Cc : List Nat
  Ispeed : Nat
  Ospeed : Nat
deriving DecidableEq

def TCGETS : Nat := 0x5401
def TCSETS : Nat := 0x5402
def ECHO : Nat := 0x00000008
def ICANON : Nat := 0x00000002
def VMIN : Nat := 0x6
def VTIME : Nat := 0x5

/-- Go's `x &^ y` on `uint32`: clear in `x` every bit set in `y`. -/
def andNot32 (x y : Nat) : Nat := x &&& (0xFFFFFFFF ^^^ y)

/-- The mutation `makeRaw` applies to the captured settings (lines 161-163):
`Lflag &^= ICANON | ECHO`, `Cc[VMIN] = 1`, `Cc[VTIME] = 0`. -/
def rawify (t : Termios) : Termios :=
  { t with
    Lflag := andNot32 t.Lflag (ICANON ||| ECHO),
    Cc := (t.Cc.set VMIN 1).set VTIME 0 }

/-- One ioctl invocation performed by `makeRaw`, recorded with its request
and, for `TCSETS`, the settings written. -/
inductive Ioctl where
  | tcgets : Ioctl
  | tcsets : Termios → Ioctl
deriving DecidableEq

/-- Environment supplying the results of the two ioctl syscalls: the errno
of the `TCGETS` call (0 meaning success), the `Termios` it fills in on
success, and the errno of the `TCSETS` call. -/
structure SysEnv where
  getErrno : Nat
  getTermios : Termios
  setErrno : Nat

/-- `makeRaw(fd)` (lines 146-175): query the current settings, snapshot
them, clear `ICANON`/`ECHO` and set `VMIN`/`VTIME`, and write the result
back; on success return the pre-mutation snapshot.  The second component
records the ioctl calls actually issued, in order. -/
def makeRaw (env : SysEnv) : Except Nat Termios × List Ioctl :=
  if env.getErrno ≠ 0 then (Except.error env.getErrno, [Ioctl.tcgets])
  else
    let termios := rawify env.getTermios
    if env.setErrno ≠ 0 then (Except.error env.setErrno, [Ioctl.tcgets, Ioctl.tcsets termios])
    else (Except.ok env.getTermios, [Ioctl.tcgets, Ioctl.tcsets termios])

/-- Observable outcome of the startup section of `RunTimer` (lines
190-232): whether the terminal-setup error was reported (and `RunTimer`
returned at line 195), whether the input goroutine was launched (line 207),
whether the render loop was entered (line 232), and whether a successful
`TCSETS` with the raw settings happened. -/
structure RunStart where
  reportedError : Option Nat
  watcherLaunched : Bool
  loopEntered : Bool
  rawModeApplied : Bool
deriving DecidableEq

/-- The startup control flow of `RunTimer` (lines 190-232): on a `makeRaw`
error, print the error and return before anything else runs; otherwise
launch the watcher and enter the loop, raw mode being in effect. -/
def runTimerStart (env : SysEnv) : RunStart :=
  match (makeRaw env).1 with
  | Except.error e =>
    { reportedError := some e, watcherLaunched := false, loopEntered := false,
      rawModeApplied := false }
  | Except.ok _ =>
    { reportedError := none, watcherLaunched := true, loopEntered := true,
      rawModeApplied := true }

/-! ### Timer state and the input goroutine (ascii_timer.go lines 202-224) -/

/-- The shared timer state (lines 202-205): `isPaused`, `pauseStart`
(`time.Time{}`, the zero instant, modelled as the integer 0) and
`pausedDuration`.  Instants and durations are integers in an arbitrary
fixed time unit. -/
structure WatchState where
  isPaused : Bool
  pauseStart : Int
  pausedDuration : Int
deriving DecidableEq

/-- The state as initialised by `RunTimer` (lines 202-205). -/
def initWatchState : WatchState := { isPaused := false, pauseStart := 0, pausedDuration := 0 }

/-- The `'p'`/`'P'` branch of the goroutine (lines 211-218), with `now` the
instant `time.Now()` returns at the keystroke. -/
def toggle (now : Int) (st : WatchState) : WatchState :=
  let isPaused := !st.isPaused
  if isPaused then { st with isPaused := isPaused, pauseStart := now }
  else if st.pauseStart ≠ 0 then
    { st with isPaused := isPaused, pausedDuration := st.pausedDuration + (now - st.pauseStart) }
  else { st with isPaused := isPaused }

/-- Side effects the goroutine can trigger (lines 220-221):
`restoreTerminal(fd, oldState)` followed by `os.Exit(0)`. -/
inductive WatcherAction where
  | restore : WatcherAction
  | exitProcess : Nat → WatcherAction
deriving DecidableEq

/-- One iteration of the goroutine body (lines 209-223) on the byte `b`
just read: the `'p'`/`'P'` test (line 211), then the `3`/`'q'` test
(line 219).  Returns the updated state and the side effects, in order. -/
def watcherStep (b : Nat) (now : Int) (st : WatchState) : WatchState × List WatcherAction :=
  let st1 := if b = 112 ∨ b = 80 then toggle now st else st
  let acts := if b = 3 ∨ b = 113 then [WatcherAction.restore, WatcherAction.exitProcess 0] else []
  (st1, acts)

/-- Replay a sequence of pause/resume keystrokes with their timestamps. -/
def replay (st : WatchState) : List Int → WatchState
  | [] => st
  | t :: ts => replay (toggle t st) ts

/-- Sum of `resume - pause` over the completed pause intervals of an
alternating pause/resume timestamp sequence (starting in the running
state); a trailing unmatched pause timestamp contributes nothing. -/
def pairSum : List Int → Int
  | t1 :: t2 :: ts => (t2 - t1) + pairSum ts
  | _ => 0

/-- As `pairSum`, for a sequence that starts while a pause begun at `q` is
already in progress. -/
def pairSumFrom (q : Int) : List Int → Int
  | [] => 0
  | t :: ts => (t - q) + pairSum ts

/-- The elapsed value the render loop computes and displays (line 239):
`time.Since(startTime) - pausedDuration`. -/
def displayElapsed (start : Int) (st : WatchState) (now : Int) : Int :=
  now - start - st.pausedDuration

/-- Modelled from the spec: the elapsed-time invariant of §3,
`now - startTime - pausedAccumulated - (isPaused ? now - pauseStartedAt : 0)`.
This is the quantity the spec says the loop displays; it exists only to be
compared with `displayElapsed`. -/
def specElapsed (start : Int) (st : WatchState) (now : Int) : Int :=
  now - start - st.pausedDuration - (if st.isPaused then now - st.pauseStart else 0)

/-! ### The h/m/s decomposition (ascii_timer.go lines 239-242)

`hours := int(elapsed.Hours())`, `minutes := int(elapsed.Minutes()) % 60`,
`seconds := int(elapsed.Seconds()) % 60`, where `elapsed` is a
`time.Duration` (an `int64` count of nanoseconds) and (Go standard
library, time/time.go)

    func (d Duration) Hours() float64 {
        hour := d / Hour
        nsec := d % Hour
        return float64(hour) + float64(nsec)/(60*60*1e9)
    }

and likewise for `Minutes` and `Seconds`.  The float64 arithmetic is
modelled exactly: every binary64 value is a dyadic rational, represented
below as an integer significand times an integer power of two, and each
float operation rounds its exact rational result to 53 significant bits,
round to nearest, ties to even (the IEEE-754 semantics on the magnitude
range these computations inhabit, far away from overflow and subnormals).
Everything is integer arithmetic, so it evaluates by kernel reduction. -/

/-- Round the rational `a / b` (with `b > 0`) to an integer, half-way cases
to the even integer. -/
def rhe (a b : Int) : Int :=
  let f := a / b
  let r := a - f * b
  if 2 * r < b then f
  else if b < 2 * r then f + 1
  else if f % 2 = 0 then f else f + 1

/-- `2^e` as a fraction of two naturals (numerator, denominator). -/
def ipow2 (e : Int) : Nat × Nat :=
  if 0 ≤ e then (2 ^ e.toNat, 1) else (1, 2 ^ (-e).toNat)

/-- Fuel-driven search for the binary exponent of the positive fraction
`a / b`: starting from `e`, keep incrementing while `2^(e+1) ≤ a / b`. -/
def qexpAux (a b : Nat) : Nat → Int → Int
  | 0, e => e
  | fuel + 1, e =>
    let pq := ipow2 (e + 1)
    if pq.1 * b ≤ a * pq.2 then qexpAux a b fuel (e + 1) else e

/-- For `2^(-60) ≤ a / b < 2^69`, the largest `e` with `2^e ≤ a / b`. -/
def qlog2 (a b : Nat) : Int := qexpAux a b 130 (-60)

/-- A binary64 value: the dyadic rational `m * 2^e` (not necessarily
normalised; every float of the magnitude range used here is representable,
and the rounding below always produces `|m| ≤ 2^53`). -/
structure F64 where
  m : Int
  e : Int
deriving DecidableEq

/-- IEEE-754 binary64 rounding (round to nearest, ties to even) of the
rational `a / b`, `b > 0`: scale into `[2^52, 2^53)`, round to an integer
significand, keep the scale.  Exact for the exponent range used here. -/
def rndRat (a : Int) (b : Nat) : F64 :=
  if a = 0 then ⟨0, 0⟩
  else if 0 < a then
    let e := qlog2 a.toNat b
    let pq := ipow2 (52 - e)
    ⟨rhe (a * (pq.1 : Int)) ((b * pq.2 : Nat) : Int), e - 52⟩
  else
    let e := qlog2 (-a).toNat b
    let pq := ipow2 (52 - e)
    ⟨-rhe (-a * (pq.1 : Int)) ((b * pq.2 : Nat) : Int), e - 52⟩

/-- Go's `float64(n)` conversion of an `int64`: round the exact value. -/
def f64ofInt (n : Int) : F64 := rndRat n 1

/-- IEEE division of a binary64 by an exactly representable natural
constant: round the exact quotient. -/
def divF (x : F64) (c : Nat) : F64 :=
  let pq := ipow2 x.e
  rndRat (x.m * (pq.1 : Int)) (c * pq.2)

/-- IEEE addition of two binary64 values: form the exact dyadic sum, then
round it. -/
def addF (x y : F64) : F64 :=
  let k := min x.e y.e
  let M := x.m * ((2 : Int) ^ (x.e - k).toNat) + y.m * ((2 : Int) ^ (y.e - k).toNat)
  let pq := ipow2 k
  rndRat (M * (pq.1 : Int)) pq.2

/-- Go's `int(x)` conversion of a `float64`: truncation toward zero. -/
def ftruncF (x : F64) : Int :=
  if 0 ≤ x.e then x.m * ((2 : Int) ^ x.e.toNat) else x.m.tdiv ((2 : Int) ^ (-x.e).toNat)

def nsPerSecond : Int := 1000000000
def nsPerMinute : Int := 60000000000
def nsPerHour : Int := 3600000000000

/-- `Duration.Hours()`: `float64(d / Hour) + float64(d % Hour) / 3.6e12`,
every float operation rounding to binary64 (Go `/` and `%` on `int64`
truncate toward zero; the constant `60*60*1e9` is exactly representable,
and so is `float64(d / Hour)` since `|d / Hour| < 2^53`). -/
def durHoursF (d : Int) : F64 :=
  addF (f64ofInt (d.tdiv nsPerHour)) (divF (f64ofInt (d.tmod nsPerHour)) 3600000000000)

/-- `Duration.Minutes()`. -/
def durMinutesF (d : Int) : F64 :=
  addF (f64ofInt (d.tdiv nsPerMinute)) (divF (f64ofInt (d.tmod nsPerMinute)) 60000000000)

/-- `Duration.Seconds()`. -/
def durSecondsF (d : Int) : F64 :=
  addF (f64ofInt (d.tdiv nsPerSecond)) (divF (f64ofInt (d.tmod nsPerSecond)) 1000000000)

/-- `hours := int(elapsed.Hours())` (line 240), `elapsed` in nanoseconds. -/
def codeHours (d : Int) : Int := ftruncF (durHoursF d)

/-- `minutes := int(elapsed.Minutes()) % 60` (line 241); Go's `%` on
`int64` is the truncated remainder. -/
def codeMinutes (d : Int) : Int := (ftruncF (durMinutesF d)).tmod 60

/-- `seconds := int(elapsed.Seconds()) % 60` (line 242). -/
def codeSeconds (d : Int) : Int := (ftruncF (durSecondsF d)).tmod 60

/-! ## Helper lemmas about the renderer -/

theorem digits_table_facts :
    ∀ d < 10, ∀ r < 5,
      ((digits.get? d).bind fun g => g.get? r).isSome ∧
      (((digits.get? d).bind fun g => g.get? r).getD "").length = 5 ∧
      '\n' ∉ (((digits.get? d).bind fun g => g.get? r).getD "").data := by
  decide

theorem colon_table_facts :
    ∀ r < 5,
      (colon.get? r).isSome ∧
      ((colon.get? r).getD "").length = 1 ∧
      '\n' ∉ ((colon.get? r).getD "").data := by
  decide

theorem glyph_facts {c : Char} (hc : validChar c) {r : Nat} (hr : r < 5) :
    glyphRow? c r = some (glyphRowD c r) ∧
    (glyphRowD c r).length = charWidth c ∧
    '\n' ∉ (glyphRowD c r).data := by
  by_cases hcol : c = ':'
  · subst hcol
    have h := colon_table_facts r hr
    have hrow : glyphRow? ':' r = colon.get? r := by simp [glyphRow?]
    have hD : glyphRowD ':' r = (colon.get? r).getD "" := by simp [glyphRowD, hrow]
    obtain ⟨g, hg⟩ := Option.isSome_iff_exists.mp h.1
    refine ⟨?_, ?_, ?_⟩
    · rw [hrow, hD, hg]; simp
    · rw [hD]; simpa [charWidth] using h.2.1
    · rw [hD]; exact h.2.2
  · rcases hc with hc | hc
    · exact absurd hc hcol
    have hd : (digitIndex c).toNat < 10 := by omega
    have h := digits_table_facts (digitIndex c).toNat hd r hr
    have hrow : glyphRow? c r = (digits.get? (digitIndex c).toNat).bind fun g => g.get? r := by
      simp [glyphRow?, hcol, hc.1, hc.2]
    have hD : glyphRowD c r = (((digits.get? (digitIndex c).toNat).bind fun g => g.get? r)).getD "" := by
      simp [glyphRowD, hrow]
    obtain ⟨g, hg⟩ := Option.isSome_iff_exists.mp h.1
    refine ⟨?_, ?_, ?_⟩
    · rw [hrow, hD, hg]; simp
    · rw [hD]; simpa [charWidth, hcol] using h.2.1
    · rw [hD]; exact h.2.2

theorem buildLine_ok {cs : List Char} (hcs : ∀ c ∈ cs, validChar c) {r : Nat} (hr : r < 5) :
    buildLine r cs = some (lineSpec r cs) ∧
    (lineSpec r cs).length = lineLen cs ∧
    '\n' ∉ (lineSpec r cs).data := by
  induction cs with
  | nil => refine ⟨rfl, rfl, ?_⟩; simp [lineSpec, concatAll]
  | cons c cs ih =>
    have hc := hcs c (List.mem_cons_self c cs)
    have ihh := ih fun u hu => hcs u (List.mem_cons_of_mem c hu)
    obtain ⟨hgrow, hglen, hgnl⟩ := glyph_facts hc hr
    have hcons : lineSpec r (c :: cs) = (glyphRowD c r ++ " ") ++ lineSpec r cs := rfl
    refine ⟨?_, ?_, ?_⟩
    · rw [buildLine, hgrow, ihh.1]; exact rfl
    · have hsp : (" " : String).length = 1 := rfl
      rw [hcons, String.length_append, String.length_append, hglen, ihh.2.1]
      simp only [hsp, lineLen, List.map_cons, List.sum_cons]
    · rw [hcons]
      simp only [String.data_append, List.mem_append]
      rintro ((h | h) | h)
      · exact hgnl h
      · simp at h
      · exact ihh.2.2 h

theorem asciiRows_ok {cs : List Char} (hcs : ∀ c ∈ cs, validChar c) :
    asciiRows cs = some (linesSpec cs) := by
  rw [asciiRows,
    (buildLine_ok hcs (by norm_num : (0:Nat) < 5)).1,
    (buildLine_ok hcs (by norm_num : (1:Nat) < 5)).1,
    (buildLine_ok hcs (by norm_num : (2:Nat) < 5)).1,
    (buildLine_ok hcs (by norm_num : (3:Nat) < 5)).1,
    (buildLine_ok hcs (by norm_num : (4:Nat) < 5)).1]
  exact rfl

theorem timeStr_data (h m s : Int) :
    (timeStr h m s).data =
      (((pad2 h).data ++ (":" : String).data ++ (pad2 m).data ++ (":" : String).data)
        ++ (pad2 s).data) := by
  simp [timeStr, String.data_append]

theorem digitChar_index (d : Nat) (hd : d < 10) :
    0 ≤ digitIndex (digitChar d) ∧ digitIndex (digitChar d) < 10 := by
  revert hd; revert d; decide

theorem natDigsAux_index :
    ∀ fuel n : Nat, ∀ c ∈ natDigsAux fuel n, 0 ≤ digitIndex c ∧ digitIndex c < 10 := by
  intro fuel
  induction fuel with
  | zero =>
    intro n c hcmem
    rw [natDigsAux] at hcmem
    simp only [List.mem_singleton] at hcmem
    subst hcmem
    exact digitChar_index _ (Nat.mod_lt _ (by norm_num))
  | succ fuel ih =>
    intro n c hcmem
    rw [natDigsAux] at hcmem
    by_cases hn : n < 10
    · rw [if_pos hn] at hcmem
      simp only [List.mem_singleton] at hcmem
      subst hcmem
      exact digitChar_index _ hn
    · rw [if_neg hn] at hcmem
      rcases List.mem_append.mp hcmem with h | h
      · exact ih _ c h
      · simp only [List.mem_singleton] at h
        subst h
        exact digitChar_index _ (Nat.mod_lt _ (by norm_num))

theorem natStr_index (n : Nat) : ∀ c ∈ (natStr n).data, 0 ≤ digitIndex c ∧ digitIndex c < 10 :=
  natDigsAux_index n n

theorem intStr_index (k : Int) (hk : 0 ≤ k) :
    ∀ c ∈ (intStr k).data, 0 ≤ digitIndex c ∧ digitIndex c < 10 := by
  intro c hcmem
  rw [intStr, if_neg (by omega)] at hcmem
  exact natStr_index _ c hcmem

theorem pad2_index (k : Int) (hk : 0 ≤ k) :
    ∀ c ∈ (pad2 k).data, 0 ≤ digitIndex c ∧ digitIndex c < 10 := by
  intro c hcmem
  rw [pad2] at hcmem
  by_cases h10 : 0 ≤ k ∧ k < 10
  · rw [if_pos h10, String.data_append] at hcmem
    rcases List.mem_append.mp hcmem with h | h
    · have : c = '0' := by simpa using h
      subst this; decide
    · exact intStr_index k hk c h
  · rw [if_neg h10] at hcmem
    exact intStr_index k hk c hcmem

theorem timeStr_valid {h m s : Int} (hh : 0 ≤ h) (hm : 0 ≤ m) (hs : 0 ≤ s) :
    ∀ c ∈ (timeStr h m s).data, validChar c := by
  intro c hcmem
  rw [timeStr] at hcmem
  simp only [String.data_append, List.mem_append] at hcmem
  have hcolon : ∀ u ∈ (":" : String).data, validChar u := by decide
  rcases hcmem with ((((h1 | h1) | h1) | h1) | h1)
  · exact Or.inr (pad2_index _ hh c h1)
  · exact hcolon c h1
  · exact Or.inr (pad2_index _ hm c h1)
  · exact hcolon c h1
  · exact Or.inr (pad2_index _ hs c h1)

theorem natDigsAux_length_pos (fuel n : Nat) : 1 ≤ (natDigsAux fuel n).length := by
  cases fuel with
  | zero => rw [natDigsAux]; simp
  | succ fuel =>
    rw [natDigsAux]
    by_cases hn : n < 10
    · rw [if_pos hn]; simp
    · rw [if_neg hn]; simp

theorem natDigsAux_length_two {fuel n : Nat} (hf : 1 ≤ fuel) (hn : 10 ≤ n) :
    2 ≤ (natDigsAux fuel n).length := by
  obtain ⟨fuel, rfl⟩ : ∃ f, fuel = f + 1 := ⟨fuel - 1, by omega⟩
  rw [natDigsAux, if_neg (by omega)]
  have := natDigsAux_length_pos fuel (n / 10)
  simp only [List.length_append, List.length_singleton]
  omega

theorem natDigsAux_length_three {fuel n : Nat} (hf : 2 ≤ fuel) (hn : 100 ≤ n) :
    3 ≤ (natDigsAux fuel n).length := by
  obtain ⟨fuel, rfl⟩ : ∃ f, fuel = f + 1 := ⟨fuel - 1, by omega⟩
  rw [natDigsAux, if_neg (by omega)]
  have h2 : 2 ≤ (natDigsAux fuel (n / 10)).length :=
    natDigsAux_length_two (by omega) (by omega)
  simp only [List.length_append, List.length_singleton]
  omega

/-! ## Helper lemmas about the pause accounting -/

theorem toggle_of_running (t p D : Int) :
    toggle t ⟨false, p, D⟩ = ⟨true, t, D⟩ := by
  simp [toggle]

theorem toggle_of_paused {t q D : Int} (hq : q ≠ 0) :
    toggle t ⟨true, q, D⟩ = ⟨false, q, D + (t - q)⟩ := by
  simp [toggle, hq]

theorem replay_pausedDuration (ts : List Int) :
    (∀ p D : Int, (∀ t ∈ ts, 0 < t) →
      (replay ⟨false, p, D⟩ ts).pausedDuration = D + pairSum ts) ∧
    (∀ q D : Int, 0 < q → (∀ t ∈ ts, 0 < t) →
      (replay ⟨true, q, D⟩ ts).pausedDuration = D + pairSumFrom q ts) := by
  induction ts with
  | nil =>
    constructor
    · intro p D _; simp [replay, pairSum]
    · intro q D _ _; simp [replay, pairSumFrom]
  | cons t ts ih =>
    constructor
    · intro p D hpos
      have ht : 0 < t := hpos t (List.mem_cons_self t ts)
      rw [replay, toggle_of_running,
        ih.2 t D ht fun u hu => hpos u (List.mem_cons_of_mem t hu)]
      cases ts with
      | nil => simp [pairSum, pairSumFrom]
      | cons t2 ts2 => simp [pairSum, pairSumFrom]
    · intro q D hq hpos
      rw [replay, toggle_of_paused hq.ne',
        (ih.1) q (D + (t - q)) fun u hu => hpos u (List.mem_cons_of_mem t hu),
        pairSumFrom]
      ring

/-! ## Helper lemmas about the binary64 model -/

theorem rhe_nonneg {a b : Int} (ha : 0 ≤ a) (hb : 0 < b) : 0 ≤ rhe a b := by
  have hf : 0 ≤ a / b := Int.ediv_nonneg ha (le_of_lt hb)
  simp only [rhe]
  split_ifs <;> omega

theorem ipow2_pos (e : Int) : 0 < (ipow2 e).1 ∧ 0 < (ipow2 e).2 := by
  simp only [ipow2]
  split_ifs <;> constructor <;> first
    | exact pow_pos (by norm_num) _
    | norm_num

theorem rndRat_m_nonneg {a : Int} {b : Nat} (ha : 0 ≤ a) (hb : 0 < b) :
    0 ≤ (rndRat a b).m := by
  simp only [rndRat]
  split_ifs with h0 hpos
  · simp
  · exact rhe_nonneg
      (mul_nonneg ha (by positivity))
      (by have := (ipow2_pos (52 - qlog2 a.toNat b)).2; positivity)
  · omega

theorem divF_m_nonneg {x : F64} {c : Nat} (hx : 0 ≤ x.m) (hc : 0 < c) :
    0 ≤ (divF x c).m := by
  simp only [divF]
  exact rndRat_m_nonneg (mul_nonneg hx (by positivity))
    (by have := (ipow2_pos x.e).2; positivity)

theorem addF_m_nonneg {x y : F64} (hx : 0 ≤ x.m) (hy : 0 ≤ y.m) :
    0 ≤ (addF x y).m := by
  simp only [addF]
  refine rndRat_m_nonneg (mul_nonneg ?_ (by positivity))
    (ipow2_pos (min x.e y.e)).2
  have h1 : (0:Int) ≤ (2 : Int) ^ (x.e - min x.e y.e).toNat := by positivity
  have h2 : (0:Int) ≤ (2 : Int) ^ (y.e - min x.e y.e).toNat := by positivity
  exact add_nonneg (mul_nonneg hx h1) (mul_nonneg hy h2)

theorem ftruncF_nonneg {x : F64} (hx : 0 ≤ x.m) : 0 ≤ ftruncF x := by
  simp only [ftruncF]
  split_ifs
  · exact mul_nonneg hx (by positivity)
  · exact Int.tdiv_nonneg hx (by positivity)

theorem durMinutesF_m_nonneg {d : Int} (hd : 0 ≤ d) : 0 ≤ (durMinutesF d).m := by
  refine addF_m_nonneg (rndRat_m_nonneg ?_ one_pos) (divF_m_nonneg (rndRat_m_nonneg ?_ one_pos) ?_)
  · exact Int.tdiv_nonneg hd (by norm_num [nsPerMinute])
  · exact Int.tmod_nonneg _ hd
  · norm_num

theorem durSecondsF_m_nonneg {d : Int} (hd : 0 ≤ d) : 0 ≤ (durSecondsF d).m := by
  refine addF_m_nonneg (rndRat_m_nonneg ?_ one_pos) (divF_m_nonneg (rndRat_m_nonneg ?_ one_pos) ?_)
  · exact Int.tdiv_nonneg hd (by norm_num [nsPerSecond])
  · exact Int.tmod_nonneg _ hd
  · norm_num

/-! ## Helper lemmas about the terminal settings -/

theorem testBit_ten : ∀ k, Nat.testBit 10 k = (decide (k = 1) || decide (k = 3)) := by
  intro k
  match k with
  | 0 => decide
  | 1 => decide
  | 2 => decide
  | 3 => decide
  | k + 4 =>
    have h10 : (10:Nat) < 2 ^ (k + 4) :=
      lt_of_lt_of_le (show (10:Nat) < 2 ^ 4 by norm_num)
        (Nat.pow_le_pow_right (by norm_num) (by omega))
    have h1 : k + 4 ≠ 1 := by omega
    have h3 : k + 4 ≠ 3 := by omega
    rw [Nat.testBit_lt_two_pow h10]
    simp [h1, h3]

theorem rawLflag_testBit (l : Nat) (hl : l < 2 ^ 32) :
    (andNot32 l (ICANON ||| ECHO)).testBit 1 = false ∧
    (andNot32 l (ICANON ||| ECHO)).testBit 3 = false ∧
    ∀ k, k ≠ 1 → k ≠ 3 → (andNot32 l (ICANON ||| ECHO)).testBit k = l.testBit k := by
  have hio : (ICANON ||| ECHO : Nat) = 10 := by decide
  have hmask : (0xFFFFFFFF : Nat) = 2 ^ 32 - 1 := by norm_num
  simp only [andNot32, hio, hmask]
  refine ⟨?_, ?_, ?_⟩
  · rw [Nat.testBit_land, Nat.testBit_xor, Nat.testBit_two_pow_sub_one, testBit_ten]
    simp
  · rw [Nat.testBit_land, Nat.testBit_xor, Nat.testBit_two_pow_sub_one, testBit_ten]
    simp
  · intro k hk1 hk3
    rw [Nat.testBit_land, Nat.testBit_xor, Nat.testBit_two_pow_sub_one, testBit_ten]
    by_cases hk : k < 32
    · simp [hk, hk1, hk3]
    · have hlk : l.testBit k = false :=
        Nat.testBit_lt_two_pow
          (lt_of_lt_of_le hl (Nat.pow_le_pow_right (by norm_num) (by omega)))
      simp [hk, hk1, hk3, hlk]

/-! ## The claims -/

/-- C1: the render loop displays `elapsed = time.Since(startTime) -
pausedDuration` (line 239), which is NOT the specified quantity
`now - startTime - pausedAccumulated - (isPaused ? now - pauseStartedAt : 0)`:
with start = 1 and 'p' pressed at instant 6, the displayed elapsed keeps
growing during the in-progress pause (6 at instant 7, 7 at instant 8)
while the specified quantity stays constant at 5, and after resuming at
instant 9 the displayed value drops back to 6 at instant 10, so it is not
monotone either — the code does not exclude an in-progress pause from the
display-time elapsed. -/
theorem c1_display_includes_inprogress_pause :
    (watcherStep 112 6 initWatchState).1.isPaused = true ∧
    displayElapsed 1 (watcherStep 112 6 initWatchState).1 7 = 6 ∧
    displayElapsed 1 (watcherStep 112 6 initWatchState).1 8 = 7 ∧
    specElapsed 1 (watcherStep 112 6 initWatchState).1 7 = 5 ∧
    specElapsed 1 (watcherStep 112 6 initWatchState).1 8 = 5 ∧
    displayElapsed 1 (watcherStep 112 6 initWatchState).1 8 ≠
      specElapsed 1 (watcherStep 112 6 initWatchState).1 8 ∧
    displayElapsed 1 (watcherStep 112 9 (watcherStep 112 6 initWatchState).1).1 10 = 6 := by
  decide

/-- C2 counterexample: the byte 'Q' (81) does not terminate the process —
the goroutine tests only the interrupt byte 3 and lowercase 'q' (line 219),
so on 'Q' it performs no state change and no side effect at all. -/
theorem c2_counterexample_Q_not_quit :
    watcherStep 81 5 initWatchState = (initWatchState, []) := by
  decide

/-- C2 (amended): for a byte equal to 3 or 'q' (113) the input watcher
restores the terminal mode and then forces process termination with exit
code 0, in that order; for every other byte — 'Q' included — it never
terminates the process. -/
theorem c2_quit_bytes (b : Nat) (now : Int) (st : WatchState) :
    (b = 3 ∨ b = 113 →
      (watcherStep b now st).2 = [WatcherAction.restore, WatcherAction.exitProcess 0]) ∧
    (¬(b = 3 ∨ b = 113) → (watcherStep b now st).2 = []) := by
  constructor
  · rintro (rfl | rfl) <;> simp [watcherStep]
  · intro hb
    simp [watcherStep, hb]

/-- C2 witness: instantiated at the byte 'q'. -/
theorem c2_quit_bytes_witness :
    (watcherStep 113 0 initWatchState).2 =
      [WatcherAction.restore, WatcherAction.exitProcess 0] :=
  (c2_quit_bytes 113 0 initWatchState).1 (Or.inr rfl)

/-- C4: replaying any finite sequence of pause/resume toggle keystrokes
with positive timestamps from the initial state accumulates exactly the sum
of (resume time - pause time) over the completed pause intervals; in
particular starting at T0, pausing at T0+5, resuming at T0+8 and sampling
the displayed elapsed at T0+10 yields 7. -/
theorem c4_pause_accounting :
    (∀ ts : List Int, (∀ t ∈ ts, 0 < t) →
      (replay initWatchState ts).pausedDuration = pairSum ts) ∧
    (∀ t0 : Int, 0 < t0 →
      displayElapsed t0 (replay initWatchState [t0 + 5, t0 + 8]) (t0 + 10) = 7) := by
  constructor
  · intro ts hts
    have h := (replay_pausedDuration ts).1 0 0 hts
    simpa [initWatchState] using h
  · intro t0 ht0
    show displayElapsed t0 (replay ⟨false, 0, 0⟩ [t0 + 5, t0 + 8]) (t0 + 10) = 7
    rw [replay, toggle_of_running, replay,
      toggle_of_paused (show (t0 + 5 : Int) ≠ 0 by omega), replay]
    simp only [displayElapsed]
    omega

/-- C4 witness: two toggles at instants 5 and 8, and the concrete scenario
with T0 = 1. -/
theorem c4_pause_accounting_witness :
    (replay initWatchState [5, 8]).pausedDuration = pairSum [5, 8] ∧
    displayElapsed 1 (replay initWatchState [1 + 5, 1 + 8]) (1 + 10) = 7 :=
  ⟨c4_pause_accounting.1 [5, 8] (by decide), c4_pause_accounting.2 1 (by norm_num)⟩

/-- C5 counterexample: at elapsed = 4097 h − 1 ns (a valid `time.Duration`
of about 170 days) the float64 `elapsed.Hours()` rounds up to exactly
4097.0, so the truncated hours over-count by one and
`hours*3600 + minutes*60 + seconds` exceeds the total elapsed seconds
rounded toward zero. -/
theorem c5_counterexample :
    (0:Int) ≤ 4097 * 3600000000000 - 1 ∧
    codeHours (4097 * 3600000000000 - 1) = 4097 ∧
    codeMinutes (4097 * 3600000000000 - 1) = 59 ∧
    codeSeconds (4097 * 3600000000000 - 1) = 59 ∧
    (4097 * 3600000000000 - 1 : Int).tdiv nsPerSecond = 14749199 ∧
    ¬(codeHours (4097 * 3600000000000 - 1) * 3600 +
        codeMinutes (4097 * 3600000000000 - 1) * 60 +
        codeSeconds (4097 * 3600000000000 - 1) ≤
      (4097 * 3600000000000 - 1 : Int).tdiv nsPerSecond) := by
  decide

/-- C5 (amended): for every non-negative elapsed duration the decomposition
computed by the timer loop satisfies 0 ≤ minutes < 60 and 0 ≤ seconds < 60;
the bound `hours*3600 + minutes*60 + seconds ≤ total elapsed seconds` does
not hold in general, because hours, minutes and seconds pass through
float64 rounding. -/
theorem c5_minutes_seconds_in_range (d : Int) (hd : 0 ≤ d) :
    0 ≤ codeMinutes d ∧ codeMinutes d < 60 ∧
    0 ≤ codeSeconds d ∧ codeSeconds d < 60 := by
  simp only [codeMinutes, codeSeconds]
  exact ⟨Int.tmod_nonneg _ (ftruncF_nonneg (durMinutesF_m_nonneg hd)),
    Int.tmod_lt_of_pos _ (by norm_num),
    Int.tmod_nonneg _ (ftruncF_nonneg (durSecondsF_m_nonneg hd)),
    Int.tmod_lt_of_pos _ (by norm_num)⟩

/-- C5 witness: instantiated at elapsed = 61 s. -/
theorem c5_minutes_seconds_in_range_witness :
    0 ≤ codeMinutes 61000000000 ∧ codeMinutes 61000000000 < 60 ∧
    0 ≤ codeSeconds 61000000000 ∧ codeSeconds 61000000000 < 60 :=
  c5_minutes_seconds_in_range 61000000000 (by norm_num)

/-- C8: a byte outside the recognized set of 'p', 'P', 'q', 'Q' and 3
leaves the timer state (isPaused, pauseStart, pausedDuration) unchanged and
triggers neither restoration nor termination. -/
theorem c8_unrecognized_byte_no_effect (b : Nat) (now : Int) (st : WatchState)
    (hb : ¬(b = 112 ∨ b = 80 ∨ b = 113 ∨ b = 81 ∨ b = 3)) :
    watcherStep b now st = (st, []) := by
  push_neg at hb
  obtain ⟨h112, h80, h113, h81, h3⟩ := hb
  simp [watcherStep, h112, h80, h113, h3]

/-- C8 witness: instantiated at the byte 'x' (120). -/
theorem c8_unrecognized_byte_no_effect_witness :
    watcherStep 120 0 initWatchState = (initWatchState, []) :=
  c8_unrecognized_byte_no_effect 120 0 initWatchState (by decide)

/-- C3 counterexample: at 00:00:00 the rendered output is not built from
space-SEPARATED glyph rows — every line carries one extra trailing space
column, because the loop appends a space after every character, the last
one included. -/
theorem c3_counterexample_trailing_space :
    getASCIITime 0 0 0 ≠
      some (joinLines
        [sepLineSpec 0 (timeStr 0 0 0).data, sepLineSpec 1 (timeStr 0 0 0).data,
         sepLineSpec 2 (timeStr 0 0 0).data, sepLineSpec 3 (timeStr 0 0 0).data,
         sepLineSpec 4 (timeStr 0 0 0).data]) ∧
    buildLine 0 (timeStr 0 0 0).data =
      some (sepLineSpec 0 (timeStr 0 0 0).data ++ " ") := by
  decide

/-- C3 (amended): for every valid hour/minute/second triple the renderer
produces exactly 5 rows joined by line breaks, no row contains a line
break, all rows have equal length, and each row is the concatenation, over
the characters of the formatted time string, of the character's glyph row
followed by a single space column (so adjacent characters are separated by
one space and each row ends with one trailing space). -/
theorem c3_render_structure (h m s : Int)
    (hh : 0 ≤ h) (hm0 : 0 ≤ m) (hm1 : m ≤ 59) (hs0 : 0 ≤ s) (hs1 : s ≤ 59) :
    asciiRows (timeStr h m s).data = some (linesSpec (timeStr h m s).data) ∧
    (linesSpec (timeStr h m s).data).length = 5 ∧
    getASCIITime h m s = some (joinLines (linesSpec (timeStr h m s).data)) ∧
    (∀ ln ∈ linesSpec (timeStr h m s).data,
      ln.length = lineLen (timeStr h m s).data ∧ '\n' ∉ ln.data) := by
  have hv := timeStr_valid hh hm0 hs0
  have hrows := asciiRows_ok hv
  refine ⟨hrows, rfl, ?_, ?_⟩
  · rw [getASCIITime, hrows]
    exact rfl
  · intro ln hln
    simp only [linesSpec, List.mem_cons, List.not_mem_nil, or_false] at hln
    rcases hln with rfl | rfl | rfl | rfl | rfl <;>
      exact ⟨(buildLine_ok hv (by norm_num)).2.1, (buildLine_ok hv (by norm_num)).2.2⟩

/-- C3 witness: instantiated at 01:02:03. -/
theorem c3_render_structure_witness :
    asciiRows (timeStr 1 2 3).data = some (linesSpec (timeStr 1 2 3).data) ∧
    getASCIITime 1 2 3 = some (joinLines (linesSpec (timeStr 1 2 3).data)) :=
  ⟨(c3_render_structure 1 2 3 (by norm_num) (by norm_num) (by norm_num) (by norm_num)
      (by norm_num)).1,
   (c3_render_structure 1 2 3 (by norm_num) (by norm_num) (by norm_num) (by norm_num)
      (by norm_num)).2.2.1⟩

/-- C6: for hours ≥ 100 (with any valid minutes and seconds) the formatter
keeps the natural digit width — `%02d` only zero-pads below two digits, so
the hours field is the plain decimal representation, at least three
characters long — and the result still renders through the glyph table. -/
theorem c6_hours_natural_width (h m s : Int)
    (hh : 100 ≤ h) (hm0 : 0 ≤ m) (hm1 : m ≤ 59) (hs0 : 0 ≤ s) (hs1 : s ≤ 59) :
    pad2 h = intStr h ∧ 3 ≤ (pad2 h).length ∧
    asciiRows (timeStr h m s).data = some (linesSpec (timeStr h m s).data) ∧
    (getASCIITime h m s).isSome := by
  have hpad : pad2 h = intStr h := by rw [pad2, if_neg (by omega)]
  have hv := timeStr_valid (show (0:Int) ≤ h by omega) hm0 hs0
  have hrows := asciiRows_ok hv
  refine ⟨hpad, ?_, hrows, ?_⟩
  · rw [hpad, intStr, if_neg (by omega)]
    show 3 ≤ (natDigsAux h.natAbs h.natAbs).length
    exact natDigsAux_length_three (by omega) (by omega)
  · rw [getASCIITime, hrows]
    exact rfl

/-- C6 witness: instantiated at 100 hours. -/
theorem c6_hours_natural_width_witness :
    pad2 100 = intStr 100 ∧ (getASCIITime 100 0 0).isSome :=
  ⟨(c6_hours_natural_width 100 0 0 (by norm_num) (by norm_num) (by norm_num) (by norm_num)
      (by norm_num)).1,
   (c6_hours_natural_width 100 0 0 (by norm_num) (by norm_num) (by norm_num) (by norm_num)
      (by norm_num)).2.2.2⟩

/-- C7: if the terminal capability query or the mutation fails at startup,
`RunTimer` reports the error and returns before launching the input watcher
or entering the render loop; conversely the watcher and the loop only ever
run with raw mode applied. -/
theorem c7_startup_failure_aborts :
    (∀ env : SysEnv, env.getErrno ≠ 0 ∨ env.setErrno ≠ 0 →
      (runTimerStart env).reportedError =
        some (if env.getErrno ≠ 0 then env.getErrno else env.setErrno) ∧
      (runTimerStart env).watcherLaunched = false ∧
      (runTimerStart env).loopEntered = false) ∧
    (∀ env : SysEnv,
      (runTimerStart env).watcherLaunched = true ∨ (runTimerStart env).loopEntered = true →
      (runTimerStart env).rawModeApplied = true) := by
  constructor
  · intro env henv
    by_cases hg : env.getErrno = 0
    · have hs : env.setErrno ≠ 0 := by tauto
      simp [runTimerStart, makeRaw, hg, hs]
    · simp [runTimerStart, makeRaw, hg]
  · intro env h
    by_cases hg : env.getErrno = 0
    · by_cases hs : env.setErrno = 0
      · simp [runTimerStart, makeRaw, hg, hs]
      · simp [runTimerStart, makeRaw, hg, hs] at h
    · simp [runTimerStart, makeRaw, hg] at h

/-- C7 witness: a failing `TCGETS` (errno 5) aborts the startup. -/
theorem c7_startup_failure_aborts_witness :
    (runTimerStart ⟨5, ⟨0, 0, 0, 0, 0, List.replicate 19 0, 0, 0⟩, 0⟩).watcherLaunched = false ∧
    (runTimerStart ⟨5, ⟨0, 0, 0, 0, 0, List.replicate 19 0, 0, 0⟩, 0⟩).loopEntered = false :=
  ⟨(c7_startup_failure_aborts.1 ⟨5, ⟨0, 0, 0, 0, 0, List.replicate 19 0, 0, 0⟩, 0⟩
      (Or.inl (by norm_num))).2.1,
   (c7_startup_failure_aborts.1 ⟨5, ⟨0, 0, 0, 0, 0, List.replicate 19 0, 0, 0⟩, 0⟩
      (Or.inl (by norm_num))).2.2⟩

/-- C9: for non-negative h, m, s every character of the formatted timestamp
is a decimal digit or ':' — the glyph index `char - '0'` stays inside the
10-entry table and the rendering never faults; for any negative hours the
leading sign character makes the computed index negative (out of bounds)
and the lookup faults. -/
theorem c9_glyph_index_safety :
    (∀ h m s : Int, 0 ≤ h → 0 ≤ m → 0 ≤ s →
      (∀ c ∈ (timeStr h m s).data, c = ':' ∨ (0 ≤ digitIndex c ∧ digitIndex c < 10)) ∧
      (getASCIITime h m s).isSome) ∧
    (∀ h m s : Int, h < 0 →
      (∃ c ∈ (timeStr h m s).data, digitIndex c < 0) ∧ getASCIITime h m s = none) := by
  constructor
  · intro h m s hh hm hs
    refine ⟨timeStr_valid hh hm hs, ?_⟩
    rw [getASCIITime, asciiRows_ok (timeStr_valid hh hm hs)]
    exact rfl
  · intro h m s hh
    have hpadh : (pad2 h).data = '-' :: (natStr h.natAbs).data := by
      rw [pad2, if_neg (show ¬(0 ≤ h ∧ h < 10) by omega), intStr, if_pos hh,
        String.data_append]
      exact rfl
    obtain ⟨rest, hdata⟩ : ∃ rest, (timeStr h m s).data = '-' :: rest := by
      rw [timeStr_data, hpadh, List.cons_append, List.cons_append, List.cons_append,
        List.cons_append]
      exact ⟨_, rfl⟩
    constructor
    · refine ⟨'-', ?_, by decide⟩
      rw [hdata]
      exact List.mem_cons_self _ _
    · have hb : buildLine 0 (timeStr h m s).data = none := by
        rw [hdata, buildLine, (by decide : glyphRow? '-' 0 = none)]
      rw [getASCIITime, asciiRows, hb]
      exact rfl

/-- C9 witness: instantiated at 01:02:03 for the in-bounds part and at
hours = -1 for the out-of-bounds part. -/
theorem c9_glyph_index_safety_witness :
    (getASCIITime 1 2 3).isSome ∧ getASCIITime (-1) 2 3 = none :=
  ⟨(c9_glyph_index_safety.1 1 2 3 (by norm_num) (by norm_num) (by norm_num)).2,
   (c9_glyph_index_safety.2 (-1) 2 3 (by norm_num)).2⟩

/-- C10: the settings `makeRaw` writes differ from the snapshot only in
clearing the ICANON (bit 1) and ECHO (bit 3) bits of the local mode flags
and in setting the control characters VMIN to 1 and VTIME to 0; all other
fields, flag bits and control characters equal the snapshot, and if the
initial `TCGETS` query fails no `TCSETS` mutation is attempted at all. -/
theorem c10_rawify_frame (t : Termios) (hl : t.Lflag < 2 ^ 32) (hc : t.Cc.length = 19) :
    (rawify t).Iflag = t.Iflag ∧ (rawify t).Oflag = t.Oflag ∧ (rawify t).Cflag = t.Cflag ∧
    (rawify t).Line = t.Line ∧ (rawify t).Ispeed = t.Ispeed ∧ (rawify t).Ospeed = t.Ospeed ∧
    (rawify t).Cc.get? VMIN = some 1 ∧ (rawify t).Cc.get? VTIME = some 0 ∧
    (∀ i, i ≠ VMIN → i ≠ VTIME → (rawify t).Cc.get? i = t.Cc.get? i) ∧
    (rawify t).Lflag.testBit 1 = false ∧ (rawify t).Lflag.testBit 3 = false ∧
    (∀ k, k ≠ 1 → k ≠ 3 → (rawify t).Lflag.testBit k = t.Lflag.testBit k) ∧
    (∀ env : SysEnv, env.getErrno ≠ 0 → (makeRaw env).2 = [Ioctl.tcgets]) := by
  have hbits := rawLflag_testBit t.Lflag hl
  refine ⟨rfl, rfl, rfl, rfl, rfl, rfl, ?_, ?_, ?_, hbits.1, hbits.2.1, hbits.2.2, ?_⟩
  · show ((t.Cc.set VMIN 1).set VTIME 0).get? VMIN = some 1
    rw [List.get?_eq_getElem?, List.getElem?_set_ne (by decide),
      List.getElem?_set_self (by rw [hc]; decide)]
  · show ((t.Cc.set VMIN 1).set VTIME 0).get? VTIME = some 0
    rw [List.get?_eq_getElem?,
      List.getElem?_set_self (by rw [List.length_set, hc]; decide)]
  · intro i hi6 hi5
    show ((t.Cc.set VMIN 1).set VTIME 0).get? i = t.Cc.get? i
    rw [List.get?_eq_getElem?, List.getElem?_set_ne (Ne.symm hi5),
      List.getElem?_set_ne (Ne.symm hi6)]
    exact (List.get?_eq_getElem? _ _).symm
  · intro env henv
    simp [makeRaw, henv]

/-- C10 witness: instantiated at a concrete snapshot. -/
theorem c10_rawify_frame_witness :
    (rawify ⟨1, 2, 3, 0xFFFF, 4, List.replicate 19 7, 8, 9⟩).Iflag = 1 ∧
    (rawify ⟨1, 2, 3, 0xFFFF, 4, List.replicate 19 7, 8, 9⟩).Cc.get? VMIN = some 1 ∧
    (rawify ⟨1, 2, 3, 0xFFFF, 4, List.replicate 19 7, 8, 9⟩).Lflag.testBit 3 = false := by
  have h := c10_rawify_frame ⟨1, 2, 3, 0xFFFF, 4, List.replicate 19 7, 8, 9⟩
    (by norm_num) (by simp)
  exact ⟨h.1, h.2.2.2.2.2.2.1, h.2.2.2.2.2.2.2.2.2.2.1⟩

end AsciiTimer
